import Mathlib

/-!
Verification of the Binance reference-data normalization core
(`src/python/parse_binance_refdata.py` of the apex repository).

The Python code is shallowly embedded as follows.

* Python dicts used as sparse records become insertion-ordered association
  lists (`Row`): assignment to an existing key updates the value in place,
  assignment to a fresh key appends at the end, exactly as CPython dicts
  behave.
* Python values flowing into records are either strings or `None`
  (`PVal.str` / `PVal.none`); JSON numbers are carried in their literal
  string form, which is also how `str()` renders them into the CSV.
* Venue-native symbols are manipulated as `List Char` so that `split`,
  slicing and indexing can be stated exactly.
* Python exceptions become `Except PyError`: the two explicit
  `raise Exception(...)` guards of `simplify_future_native_code` are
  `PyError.formatError`, `int()` on a non-numeric slice is
  `PyError.valueError`, an out-of-range sequence index is
  `PyError.indexError`, and a missing mandatory dict key is
  `PyError.keyError`.
* The process-scoped warn-once state (`log_warn_once_msgs` plus the stream
  of emitted warnings) is threaded explicitly as a pair of lists.
* Diagnostic message texts follow the source format strings, except that
  the single-quote characters wrapping interpolated values are omitted;
  this does not affect which messages coincide.
* Dict field access on filter entries (`filter['minQty']` etc.) is modelled
  by a total lookup with an empty-string default: the exchange schema
  guarantees the key for the matching filter tag, so the default is never
  consulted on well-formed documents.
-/

/-- A Python value stored in a record: a string, or `None`. -/
inductive PVal where
  | str (s : String)
  | none
deriving DecidableEq, Repr

/-- Python `str()` as applied when serializing a record value. -/
def pvalStr : PVal → String
  | .str s => s
  | .none => "None"

/-- `item.get(key, None)`: an optional raw-item field as a record value. -/
def pvalOfOpt : Option String → PVal
  | some s => .str s
  | Option.none => .none

/-- A Python dict used as a record: insertion-ordered association list. -/
def Row : Type := List (String × PVal)

instance : DecidableEq Row := inferInstanceAs (DecidableEq (List (String × PVal)))

/-- Dict lookup `row.get(key)`: first binding of the key, if any. -/
def dget : Row → String → Option PVal
  | [], _ => Option.none
  | (k2, v2) :: rest, k => if k2 = k then some v2 else dget rest k

/-- Dict assignment `row[key] = v`: update in place if the key exists
(keeping its position), otherwise append at the end. -/
def dinsert (k : String) (v : PVal) : Row → Row
  | [] => [(k, v)]
  | (k2, v2) :: rest => if k2 = k then (k2, v) :: rest else (k2, v2) :: dinsert k v rest

/-- A raw exchange filter entry: its `filterType` tag plus the remaining
attributes of the JSON object. -/
structure BFilter where
  filterType : String
  attrs : List (String × String)
deriving DecidableEq, Repr

/-- `filter[key]` for a filter attribute.  On schema-conforming documents
the key is present whenever the code reads it. -/
def fget (f : BFilter) (k : String) : PVal :=
  match f.attrs.find? (fun kv => kv.1 == k) with
  | some kv => .str kv.2
  | Option.none => .str ""

/-- Errors raised by the embedded Python code. -/
inductive PyError where
  | formatError (msg : List Char)
  | valueError
  | indexError
  | keyError
deriving DecidableEq, Repr

/-- Whether a computation ended in one of the two explicit format guards
of `simplify_future_native_code`. -/
def isFormatError {α : Type} : Except PyError α → Bool
  | .error (.formatError _) => true
  | _ => false

/-- Python `str.split(sep)` for a one-character separator. -/
def pySplit (sep : Char) : List Char → List (List Char)
  | [] => [[]]
  | c :: rest =>
    match pySplit sep rest with
    | [] => [[]]
    | s :: ss => if c = sep then [] :: s :: ss else (c :: s) :: ss

/-- Python `int()` on a string of decimal digits.  (Python's `int` also
tolerates surrounding whitespace and a sign; such inputs never reach the
conversion in any theorem below, which all constrain the slice to digits.) -/
def pyIntDigits (l : List Char) : Except PyError Nat :=
  if l ≠ [] ∧ l.all Char.isDigit then
    .ok (l.foldl (fun n c => 10 * n + (c.toNat - 48)) 0)
  else .error .valueError

/-- Python sequence indexing `s[i]`: non-negative indexes from the front,
negative indexes from the back, `IndexError` out of range. -/
def pyIndex (l : List Char) (i : Int) : Except PyError Char :=
  if h : 0 ≤ i ∧ i < l.length then
    .ok (l.get ⟨i.toNat, by omega⟩)
  else if h2 : -(l.length : Int) ≤ i ∧ i < 0 then
    .ok (l.get ⟨(l.length + i).toNat, by omega⟩)
  else .error .indexError

/-- The CME month-code table `"FGHJKMNQUVXZ"`. -/
def month_codes : List Char := ['F', 'G', 'H', 'J', 'K', 'M', 'N', 'Q', 'U', 'V', 'X', 'Z']

/-- `simplify_future_native_code(symbol)`: split the symbol on `_`, demand
two parts and a six-character date, then build
`".".join([month_code + year[1], 'BNC'])` where `month_code` indexes the
month table at `int(date[2:4]) - 1`. -/
def simplify_future_native_code (symbol : List Char) : Except PyError (List Char) :=
  let parts := pySplit '_' symbol
  if parts.length ≠ 2 then
    .error (.formatError ("expected symbol to split into 2 parts, ".data ++ symbol))
  else
    let datePart := parts.getD 1 []
    if datePart.length ≠ 6 then
      .error (.formatError ("expected symbol-date to have len 6, ".data ++ datePart))
    else
      let year := datePart.take 2
      do
        let month ← pyIntDigits ((datePart.drop 2).take 2)
        let mc ← pyIndex month_codes ((month : Int) - 1)
        let y1 ← pyIndex year 1
        .ok (List.intercalate ['.'] [[mc, y1], ['B', 'N', 'C']])

instance exceptDecEq {ε α : Type} [DecidableEq ε] [DecidableEq α] : DecidableEq (Except ε α) :=
  fun x y =>
    match x, y with
    | .ok a, .ok b =>
      if h : a = b then .isTrue (by rw [h]) else .isFalse (by intro hc; cases hc; exact h rfl)
    | .error a, .error b =>
      if h : a = b then .isTrue (by rw [h]) else .isFalse (by intro hc; cases hc; exact h rfl)
    | .ok _, .error _ => .isFalse (by intro hc; cases hc)
    | .error _, .ok _ => .isFalse (by intro hc; cases hc)

/-- Python `str.endswith(suffix)`. -/
def pyEndsWith (suffix s : String) : Bool :=
  suffix.data.isSuffixOf s.data

/-- Python `str.replace(old, new)` for a non-empty `old`: replace every
non-overlapping occurrence, scanning left to right. -/
def pyReplace (pat rep : List Char) : List Char → List Char
  | [] => []
  | c :: rest =>
    if h : pat ≠ [] ∧ pat.isPrefixOf (c :: rest) then
      rep ++ pyReplace pat rep ((c :: rest).drop pat.length)
    else
      c :: pyReplace pat rep rest
termination_by l => l.length
decreasing_by
  · simp only [List.length_drop]
    have : pat.length ≠ 0 := fun hn => h.1 (List.eq_nil_of_length_eq_zero hn)
    simp only [List.length_cons]
    omega
  · simp [Nat.lt_succ_self]

/-- The message of `log_warn_once("ignoring binance filter '{}'".format(filterType))`
and of the derivative loop's `logging.warn` with the same format string. -/
def warn_filter_msg (filterType : String) : String :=
  "ignoring binance filter " ++ filterType

/-- The warn-once state: the process-scoped set `log_warn_once_msgs`
(as a list used only through membership) paired with the stream of
warnings actually emitted to the log. -/
def WarnState : Type := List String × List String

/-- `log_warn_once(msg)`: emit the warning and record it, unless an
identical message was recorded before. -/
def log_warn_once (st : WarnState) (msg : String) : WarnState :=
  if msg ∈ st.1 then st else (st.1 ++ [msg], st.2 ++ [msg])

/-- `filters_to_ignore` of `parse_binance_spot_exchange_info`. -/
def spot_filters_to_ignore : List String :=
  ["MAX_NUM_ALGO_ORDERS", "ICEBERG_PARTS", "MARKET_LOT_SIZE", "PERCENT_PRICE",
   "TRAILING_DELTA", "PERCENT_PRICE_BY_SIDE", "MAX_POSITION"]

/-- `filters_to_ignore` of `parse_binance_usdfut_exchange_info`. -/
def deriv_filters_to_ignore : List String :=
  ["MAX_NUM_ALGO_ORDERS", "ICEBERG_PARTS", "MARKET_LOT_SIZE", "PERCENT_PRICE"]

/-- A raw spot symbol item, with the fields the spot normalizer reads.
JSON numbers (the precision fields) are carried in their literal string
form. -/
structure SpotItem where
  symbol : String
  baseAsset : String
  quoteAsset : String
  quoteAssetPrecision : String
  baseAssetPrecision : String
  status : String
  filters : List BFilter
deriving DecidableEq, Repr

/-- The spot normalizer's filter loop: dispatch on `filterType`, extract
the named constraints, silently drop ignored tags, and `log_warn_once`
any other tag. -/
def processSpotFilters : List BFilter → Row → WarnState → Row × WarnState
  | [], row, st => (row, st)
  | f :: fs, row, st =>
    let ft := f.filterType
    if ft = "LOT_SIZE" then
      processSpotFilters fs
        (dinsert "lotQty" (fget f "stepSize")
          (dinsert "maxQty" (fget f "maxQty")
            (dinsert "minQty" (fget f "minQty") row))) st
    else if ft = "MIN_NOTIONAL" then
      processSpotFilters fs (dinsert "minNotional" (fget f "minNotional") row) st
    else if ft = "PRICE_FILTER" then
      processSpotFilters fs (dinsert "tickSize" (fget f "tickSize") row) st
    else if ft = "MAX_NUM_ORDERS" then
      processSpotFilters fs (dinsert "maxNumOrders" (fget f "maxNumOrders") row) st
    else if ft ∈ spot_filters_to_ignore then
      processSpotFilters fs row st
    else
      processSpotFilters fs row (log_warn_once st (warn_filter_msg ft))

/-- The record built for one spot item before its filter loop, with the
assignments in source order (`quoteAsset` is assigned twice in the
source; the second assignment rewrites the same value in place). -/
def buildSpotRow (item : SpotItem) : Row :=
  let asset_id_root := item.baseAsset ++ "/" ++ item.quoteAsset
  let row := dinsert "symbol" (.str item.symbol) []
  let row := dinsert "instId" (.str (asset_id_root ++ ".BNC")) row
  let row := dinsert "type" (.str "coinpair") row
  let row := dinsert "venue" (.str "binance") row
  let row := dinsert "baseAsset" (.str item.baseAsset) row
  let row := dinsert "quoteAsset" (.str item.quoteAsset) row
  let row := dinsert "quoteAsset" (.str item.quoteAsset) row
  let row := dinsert "quoteAssetPrecision" (.str item.quoteAssetPrecision) row
  let row := dinsert "baseAssetPrecision" (.str item.baseAssetPrecision) row
  dinsert "status" (.str item.status) row

/-- `parse_binance_spot_exchange_info`: one record per raw symbol item,
threading the warn-once state. -/
def parse_binance_spot_exchange_info : List SpotItem → WarnState → List Row × WarnState
  | [], st => ([], st)
  | item :: rest, st =>
    let rs := processSpotFilters item.filters (buildSpotRow item) st
    let tail := parse_binance_spot_exchange_info rest rs.2
    (rs.1 :: tail.1, tail.2)

/-- `normalise_contractType`: classify a raw contract-type tag into a
canonical `(assetType, shortCode)` pair, `(None, None)` when unhandled. -/
def normalise_contractType (contractType : String) : Option String × Option String :=
  if contractType = "PERPETUAL" then (some "perp", some "PF")
  else if contractType = "CURRENT_QUARTER" ∨ contractType = "NEXT_QUARTER" then
    (some "future", some "")
  else (Option.none, Option.none)

/-- A raw derivative symbol item, with the fields the derivative
normalizer reads.  `contractType` is optional because the source reads it
with `item['contractType']`, which raises on absence. -/
structure DerivItem where
  symbol : String
  baseAsset : String
  quoteAsset : String
  marginAsset : String
  quotePrecision : String
  baseAssetPrecision : String
  status : Option String
  contractStatus : Option String
  underlyingType : Option String
  contractType : Option String
  filters : List BFilter
deriving DecidableEq, Repr

/-- The derivative normalizer's filter loop: like the spot loop but with
the derivative field keys (`notional`, `limit`), the derivative
ignore-set, and a plain `logging.warn` (no warn-once suppression). -/
def processDerivFilters : List BFilter → Row → List String → Row × List String
  | [], row, ds => (row, ds)
  | f :: fs, row, ds =>
    let ft := f.filterType
    if ft = "LOT_SIZE" then
      processDerivFilters fs
        (dinsert "lotQty" (fget f "stepSize")
          (dinsert "maxQty" (fget f "maxQty")
            (dinsert "minQty" (fget f "minQty") row))) ds
    else if ft = "MIN_NOTIONAL" then
      processDerivFilters fs (dinsert "minNotional" (fget f "notional") row) ds
    else if ft = "PRICE_FILTER" then
      processDerivFilters fs (dinsert "tickSize" (fget f "tickSize") row) ds
    else if ft = "MAX_NUM_ORDERS" then
      processDerivFilters fs (dinsert "maxNumOrders" (fget f "limit") row) ds
    else if ft ∈ deriv_filters_to_ignore then
      processDerivFilters fs row ds
    else
      processDerivFilters fs row (ds ++ [warn_filter_msg ft])

/-- The `instId` computed for a classified derivative item: the
perp branch chain (lines 143-149 of the source), overwritten by the
future branch (lines 151-153), which may raise. -/
def derivInstIdExc (assetType asset_id_root symbol : String) : Except PyError String :=
  let instId0 :=
    if assetType = "perp" ∧ pyEndsWith "_PERP" symbol = false then
      asset_id_root ++ ".PF.BNC"
    else if assetType = "perp" ∧ pyEndsWith ".PERP" symbol = true then
      String.mk (pyReplace "_PERP".data ".PF".data symbol.data) ++ ".BNC"
    else
      asset_id_root ++ ".BNC"
  if assetType = "future" then
    (simplify_future_native_code symbol.data).map
      (fun code => asset_id_root ++ "." ++ String.mk code)
  else .ok instId0

/-- The record built for one classified derivative item before its filter
loop, with the assignments in source order. -/
def buildDerivRow (venue : String) (item : DerivItem) (assetType instId : String) : Row :=
  let row := dinsert "symbol" (.str item.symbol) []
  let row := dinsert "instId" (.str instId) row
  let row := dinsert "type" (.str assetType) row
  let row := dinsert "venue" (.str venue) row
  let row := dinsert "baseAsset" (.str item.baseAsset) row
  let row := dinsert "quoteAsset" (.str item.quoteAsset) row
  let row := dinsert "marginAsset" (.str item.marginAsset) row
  let row := dinsert "quoteAssetPrecision" (.str item.quotePrecision) row
  let row := dinsert "baseAssetPrecision" (.str item.baseAssetPrecision) row
  let row := dinsert "status"
    (.str (match item.status with
           | some s => s
           | Option.none =>
             match item.contractStatus with
             | some cs => cs
             | Option.none => "unknown")) row
  let row := dinsert "underlyingType" (pvalOfOpt item.underlyingType) row
  dinsert "contractType" (pvalOfOpt item.contractType) row

/-- The tail of a derivative-item iteration once the `instId`
computation has finished: a raised error aborts the iteration with no
warnings emitted (the filter loop was never reached); otherwise the
record is built and the filter loop runs. -/
def processDerivWithInstId (venue : String) (item : DerivItem) (assetType : String) :
    Except PyError String → Except PyError (Option Row) × List String
  | .error e => (.error e, [])
  | .ok instId =>
    let rd := processDerivFilters item.filters (buildDerivRow venue item assetType instId) []
    (.ok (some rd.1), rd.2)

/-- A derivative-item iteration for a classified item. -/
def processDerivClassified (venue : String) (item : DerivItem) (assetType : String) :
    Except PyError (Option Row) × List String :=
  processDerivWithInstId venue item assetType
    (derivInstIdExc assetType (item.baseAsset ++ "/" ++ item.quoteAsset) item.symbol)

/-- Dispatch on the classification result: `None` means the item is
skipped (`continue`), producing no record and no warning. -/
def processDerivUnwrap (venue : String) (item : DerivItem) :
    Option String → Except PyError (Option Row) × List String
  | Option.none => (.ok Option.none, [])
  | some assetType => processDerivClassified venue item assetType

/-- Dispatch on the raw `contractType` field; `item['contractType']`
raises `KeyError` when the field is absent. -/
def processDerivTagged (venue : String) (item : DerivItem) :
    Option String → Except PyError (Option Row) × List String
  | Option.none => (.error .keyError, [])
  | some ct => processDerivUnwrap venue item (normalise_contractType ct).1

/-- One iteration of the derivative normalizer's symbol loop: `none` in
the `ok` result means the item was skipped (unhandled contract type);
an `error` aborts the run.  The second component is the stream of
warnings the iteration emitted before returning or raising. -/
def processDerivItem (venue : String) (item : DerivItem) :
    Except PyError (Option Row) × List String :=
  processDerivTagged venue item item.contractType

/-- Combine one iteration's outcome with the processing of the
remaining items: an error aborts the run (the remaining items are never
reached), while the warnings already emitted stay on the log. -/
def parseUsdfutStep (pr : Except PyError (Option Row) × List String)
    (tail : Except PyError (List Row) × List String) :
    Except PyError (List Row) × List String :=
  match pr.1 with
  | .error e => (.error e, pr.2)
  | .ok Option.none => (tail.1, pr.2 ++ tail.2)
  | .ok (some row) => (tail.1.map (fun rows => row :: rows), pr.2 ++ tail.2)

/-- `parse_binance_usdfut_exchange_info`: process the symbol items in
order. -/
def parse_binance_usdfut_exchange_info (venue : String) :
    List DerivItem → Except PyError (List Row) × List String
  | [] => (.ok [], [])
  | item :: rest =>
    parseUsdfutStep (processDerivItem venue item)
      (parse_binance_usdfut_exchange_info venue rest)

/-- The inner loop of `extract_header_cols` over one record's keys.
`uniq` models `header_cols_unique`; after each append the source rebinds
it to `set(header_cols)`, so the updated column list serves as the set. -/
def ehcKeys : List String → List String → List String → List String × List String
  | [], cols, uniq => (cols, uniq)
  | k :: rest, cols, uniq =>
    if k ∈ uniq then ehcKeys rest cols uniq
    else ehcKeys rest (cols ++ [k]) (cols ++ [k])

/-- The outer loop of `extract_header_cols` over the record list. -/
def ehcRows : List Row → List String → List String → List String
  | [], cols, _ => cols
  | r :: rest, cols, uniq =>
    let (c2, u2) := ehcKeys (r.map Prod.fst) cols uniq
    ehcRows rest c2 u2

/-- `extract_header_cols(rows, index_field)`.  Note the source initializes
`header_cols_unique = set(index_field)` — the set of the *characters* of
the key field name (as one-character strings), not the singleton set of
the name itself. -/
def extract_header_cols (rows : List Row) (index_field : String) : List String :=
  ehcRows rows [index_field] (index_field.data.map (fun c => String.mk [c]))

/-- `row[index_field]` as used by the CSV writer for the row id.  On the
record lists the claims quantify over, the key field is present, so the
`None` default is never consulted. -/
def rowKey (idx : String) (r : Row) : PVal :=
  (dget r idx).getD .none

/-- One output line's cells: `row.get(col, "")` for each header column. -/
def renderLine (hcols : List String) (r : Row) : List PVal :=
  hcols.map (fun c => (dget r c).getD (.str ""))

/-- The `print("ignoring duplicate row for '{}'".format(row_id))`
diagnostic of the CSV writer. -/
def dupMsg (rowId : PVal) : String :=
  "ignoring duplicate row for " ++ pvalStr rowId

/-- The CSV writer's row-collection loop: build each line, keep the first
line per row id, and emit a diagnostic for every duplicate. -/
def buildLinesGo (hcols : List String) (idx : String) :
    List Row → List (PVal × List PVal) → List String → List (PVal × List PVal) × List String
  | [], acc, ds => (acc, ds)
  | r :: rest, acc, ds =>
    let rid := rowKey idx r
    if rid ∈ acc.map Prod.fst then
      buildLinesGo hcols idx rest acc (ds ++ [dupMsg rid])
    else
      buildLinesGo hcols idx rest (acc ++ [(rid, renderLine hcols r)]) ds

/-- The string Python's `sorted` compares for a row id (row ids are
strings on every input the writer is used with). -/
def pvalSortKey : PVal → String
  | .str s => s
  | .none => ""

/-- The data rows of `write_csv_file` in emission order: the surviving
lines, sorted ascending by row id (`for key in sorted(lines.keys())`). -/
def write_csv_data (rows : List Row) (idx : String) : List (PVal × List PVal) :=
  List.insertionSort (fun a b => pvalSortKey a.1 ≤ pvalSortKey b.1)
    (buildLinesGo (extract_header_cols rows idx) idx rows [] []).1

/-- The duplicate-row diagnostics emitted by `write_csv_file`. -/
def write_csv_diags (rows : List Row) (idx : String) : List String :=
  (buildLinesGo (extract_header_cols rows idx) idx rows [] []).2

/-- The text lines `write_csv_file` writes: the delimiter-joined header,
then one delimiter-joined stringified line per surviving record. -/
def write_csv_file (rows : List Row) (idx delim : String) : List String :=
  String.intercalate delim (extract_header_cols rows idx) ::
    (write_csv_data rows idx).map
      (fun kv => String.intercalate delim (kv.2.map pvalStr))

/-- A filter tag the spot loop neither extracts nor ignores. -/
def spotUnrecognized (ft : String) : Bool :=
  decide (ft ∉ ["LOT_SIZE", "MIN_NOTIONAL", "PRICE_FILTER", "MAX_NUM_ORDERS"] ∧
          ft ∉ spot_filters_to_ignore)

/-- A filter tag the derivative loop neither extracts nor ignores. -/
def derivUnrecognized (ft : String) : Bool :=
  decide (ft ∉ ["LOT_SIZE", "MIN_NOTIONAL", "PRICE_FILTER", "MAX_NUM_ORDERS"] ∧
          ft ∉ deriv_filters_to_ignore)

/-- Some record of the spot run carries an unrecognized filter tag whose
derived warning message is `m`. -/
def spotTrigger (items : List SpotItem) (m : String) : Bool :=
  items.any (fun it => it.filters.any
    (fun f => spotUnrecognized f.filterType && (warn_filter_msg f.filterType == m)))

/-- The derivative normalizer skips this item: its contract type is
present but classifies to `(None, None)`. -/
def derivSkipped (it : DerivItem) : Bool :=
  match it.contractType with
  | some ct => ((normalise_contractType ct).1).isNone
  | Option.none => false

/-- The derivative normalizer builds a record for this item (it is
neither skipped nor missing its contract type). -/
def derivProcessed (it : DerivItem) : Bool :=
  match it.contractType with
  | some ct => ((normalise_contractType ct).1).isSome
  | Option.none => false

/-- How many unrecognized-filter occurrences with derived message `m`
the derivative run walks over (skipped items never reach the filter
loop). -/
def derivOccurrences (items : List DerivItem) (m : String) : Nat :=
  ((items.filter derivProcessed).map
    (fun it => it.filters.countP
      (fun f => derivUnrecognized f.filterType && (warn_filter_msg f.filterType == m)))).sum

/-- The coin-margined perpetual item of the claim's example. -/
def c4item : DerivItem :=
  ⟨"BTCUSD_PERP", "BTC", "USD", "BTC", "8", "8", some "TRADING", Option.none,
    some "COIN", some "PERPETUAL", []⟩

/-- A USD-margined perpetual item whose raw document carries no
`underlyingType` field. -/
def c9item : DerivItem :=
  ⟨"BTCUSDT", "BTC", "USDT", "USDT", "8", "8", some "TRADING", Option.none,
    Option.none, some "PERPETUAL", []⟩

/-- The record the derivative normalizer builds for `c9item`. -/
def c9row : Row :=
  [("symbol", .str "BTCUSDT"), ("instId", .str "BTC/USDT.PF.BNC"), ("type", .str "perp"),
   ("venue", .str "binance_usdfut"), ("baseAsset", .str "BTC"), ("quoteAsset", .str "USDT"),
   ("marginAsset", .str "USDT"), ("quoteAssetPrecision", .str "8"),
   ("baseAssetPrecision", .str "8"), ("status", .str "TRADING"),
   ("underlyingType", PVal.none), ("contractType", .str "PERPETUAL")]

/-- Folding `log_warn_once` over a list of messages. -/
def warnFold (st : WarnState) (msgs : List String) : WarnState :=
  msgs.foldl log_warn_once st

/-- The spot warning messages one filter list gives rise to, in order,
before warn-once deduplication. -/
def spotWarnList (fs : List BFilter) : List String :=
  (fs.filter (fun f => spotUnrecognized f.filterType)).map
    (fun f => warn_filter_msg f.filterType)

/-- The spot warning messages of a whole run, before deduplication. -/
def spotWarnAll : List SpotItem → List String
  | [] => []
  | it :: rest => spotWarnList it.filters ++ spotWarnAll rest

def exceptIsOk {e a : Type} : Except e a → Bool
  | .ok _ => true
  | .error _ => false

/-- The derivative warning messages of one filter list, in order; the
derivative loop performs no deduplication. -/
def derivWarnList (fs : List BFilter) : List String :=
  (fs.filter (fun f => derivUnrecognized f.filterType)).map
    (fun f => warn_filter_msg f.filterType)

/-- A USD-margined perpetual item carrying one unrecognized filter tag
`FOO_FILTER`. -/
def c2item (s : String) : DerivItem :=
  ⟨s, "BTC", "USDT", "USDT", "8", "8", some "TRADING", Option.none, Option.none,
    some "PERPETUAL", [⟨"FOO_FILTER", []⟩]⟩

/-- Three records carrying the same unrecognized filter tag, hence the
same derived warning message. -/
def c2items : List DerivItem := [c2item "AAAUSDT", c2item "BBBUSDT", c2item "CCCUSDT"]

/-- The record has the key field, with a string value. -/
def hasStrKey (idx : String) (r : Row) : Bool :=
  match dget r idx with
  | some (.str _) => true
  | _ => false

/-- The conjunction of CSV Writer guarantees: data rows ascend by key,
exactly one surviving row per key value occurring in the input, the
surviving row renders the first occurrence in input order (missing
columns as empty string), and a duplicated key emits a diagnostic. -/
def csvSpec (rows : List Row) (idx : String) : Prop :=
  List.Sorted (fun a b => pvalSortKey a.1 ≤ pvalSortKey b.1) (write_csv_data rows idx) ∧
  (∀ k : PVal, ((write_csv_data rows idx).filter (fun kv => kv.1 == k)).length =
    if rows.any (fun r => rowKey idx r == k) then 1 else 0) ∧
  (∀ k : PVal, ∀ r : Row, rows.find? (fun r2 => rowKey idx r2 == k) = some r →
    (k, renderLine (extract_header_cols rows idx) r) ∈ write_csv_data rows idx) ∧
  (∀ k : PVal, 2 ≤ rows.countP (fun r => rowKey idx r == k) →
    dupMsg k ∈ write_csv_diags rows idx)

instance csvRelTotal :
    IsTotal (PVal × List PVal) (fun a b => pvalSortKey a.1 ≤ pvalSortKey b.1) :=
  ⟨fun _ _ => le_total _ _⟩

instance csvRelTrans :
    IsTrans (PVal × List PVal) (fun a b => pvalSortKey a.1 ≤ pvalSortKey b.1) :=
  ⟨fun _ _ _ h1 h2 => le_trans h1 h2⟩

/-- A record list with a duplicated key value `"b"` (first and third
records) under key field `"a"`. -/
def c5rows : List Row :=
  [[("a", .str "b"), ("x", .str "1")],
   [("a", .str "a"), ("y", .str "2")],
   [("a", .str "b"), ("x", .str "9")]]

lemma pySplit_no_sep (sep : Char) (l : List Char) (h : sep ∉ l) : pySplit sep l = [l] := by
  induction l with
  | nil => rfl
  | cons c rest ih =>
    have hc : ¬(c = sep) := by intro e; exact h (by simp [e])
    have hr : sep ∉ rest := fun m => h (List.mem_cons_of_mem _ m)
    simp [pySplit, ih hr, hc]

lemma pySplit_sandwich (sep : Char) (root date : List Char)
    (h1 : sep ∉ root) (h2 : sep ∉ date) :
    pySplit sep (root ++ sep :: date) = [root, date] := by
  induction root with
  | nil => simp [pySplit, pySplit_no_sep sep date h2]
  | cons c cs ih =>
    have hc : ¬(c = sep) := by intro e; exact h1 (by simp [e])
    have hr : sep ∉ cs := fun m => h1 (List.mem_cons_of_mem _ m)
    simp [List.cons_append, pySplit, ih hr, hc]

lemma pyIndex_pos (l : List Char) (i : Int) (d : Char)
    (h0 : 0 ≤ i) (hl : i < l.length) :
    pyIndex l i = .ok (l.getD i.toNat d) := by
  unfold pyIndex
  rw [dif_pos ⟨h0, hl⟩]
  congr 1
  rw [List.getD_eq_getElem]
  · simp [List.get_eq_getElem]
  · omega

lemma pyIndex_neg (l : List Char) (i : Int) (d : Char)
    (h0 : i < 0) (hl : -(l.length : Int) ≤ i) :
    pyIndex l i = .ok (l.getD ((l.length : Int) + i).toNat d) := by
  unfold pyIndex
  rw [dif_neg (by omega), dif_pos ⟨hl, h0⟩]
  congr 1
  rw [List.getD_eq_getElem]
  · simp [List.get_eq_getElem]
  · omega

lemma pyIndex_oob (l : List Char) (i : Int) (h : (l.length : Int) ≤ i) :
    pyIndex l i = .error .indexError := by
  unfold pyIndex
  rw [dif_neg (by omega), dif_neg (by omega)]

lemma pyIndex_cases (l : List Char) (i : Int) :
    (∃ c, pyIndex l i = .ok c) ∨ pyIndex l i = .error .indexError := by
  unfold pyIndex
  split
  · exact Or.inl ⟨_, rfl⟩
  · split
    · exact Or.inl ⟨_, rfl⟩
    · exact Or.inr rfl

lemma pyIntDigits_cases (l : List Char) :
    (∃ n, pyIntDigits l = .ok n) ∨ pyIntDigits l = .error .valueError := by
  unfold pyIntDigits
  split
  · exact Or.inl ⟨_, rfl⟩
  · exact Or.inr rfl

/-- Evaluation of `simplify_future_native_code` on a well-shaped symbol:
everything reduces to the month-table lookup at `int(MM) - 1`. -/
lemma simplify_shape (root : List Char) (y0 y1 m0 m1 d0 d1 : Char)
    (h1 : '_' ∉ root) (h2 : '_' ∉ [y0, y1, m0, m1, d0, d1])
    (hm0 : m0.isDigit = true) (hm1 : m1.isDigit = true) :
    simplify_future_native_code (root ++ '_' :: [y0, y1, m0, m1, d0, d1]) =
      (pyIndex month_codes
          (((10 * (m0.toNat - 48) + (m1.toNat - 48) : Nat) : Int) - 1)).map
        (fun mc => [mc, y1, '.', 'B', 'N', 'C']) := by
  have hs := pySplit_sandwich '_' root [y0, y1, m0, m1, d0, d1] h1 h2
  have hint : pyIntDigits [m0, m1] = .ok (10 * (m0.toNat - 48) + (m1.toNat - 48)) := by
    simp [pyIntDigits, hm0, hm1]
  have hy : pyIndex [y0, y1] 1 = .ok y1 := by
    have := pyIndex_pos [y0, y1] 1 'F' (by omega) (by simp)
    simpa using this
  simp only [simplify_future_native_code, hs]
  norm_num
  rw [hint]
  simp only [Bind.bind, Except.bind]
  rcases pyIndex_cases month_codes
      (((10 * (m0.toNat - 48) + (m1.toNat - 48) : Nat) : Int) - 1) with ⟨c, hc⟩ | hc <;>
    · push_cast at hc
      simp [Except.map, hy, List.intercalate]

/-- C3: the claim's expected value.  On the spec's own example the
simplifier returns `"H4.BNC"`, not the two-character string `"H4"`:
the source joins the month/year code with the literal `'BNC'`. -/
theorem C3_counterexample :
    simplify_future_native_code
        ['B', 'T', 'C', 'U', 'S', 'D', 'T', '_', '2', '4', '0', '3', '2', '9'] =
      .ok ['H', '4', '.', 'B', 'N', 'C'] ∧
    (['H', '4', '.', 'B', 'N', 'C'] : List Char) ≠ ['H', '4'] := by
  constructor
  · rfl
  · decide

/-- C3 (amended): for every well-formed futures symbol
`"<root>_<YYMMDD>"` with month `1..12`, the Future-Code Simplifier
returns `"<monthCode><lastDigitOfYear>.BNC"`, the month code indexing
the fixed table `F G H J K M N Q U V X Z` at `MM - 1`. -/
theorem C3_amended (root : List Char) (y0 y1 m0 m1 d0 d1 : Char)
    (h1 : '_' ∉ root) (h2 : '_' ∉ [y0, y1, m0, m1, d0, d1])
    (hm0 : m0.isDigit = true) (hm1 : m1.isDigit = true)
    (hlo : 1 ≤ 10 * (m0.toNat - 48) + (m1.toNat - 48))
    (hhi : 10 * (m0.toNat - 48) + (m1.toNat - 48) ≤ 12) :
    simplify_future_native_code (root ++ '_' :: [y0, y1, m0, m1, d0, d1]) =
      .ok ([month_codes.getD (10 * (m0.toNat - 48) + (m1.toNat - 48) - 1) 'F', y1] ++
        ['.', 'B', 'N', 'C']) := by
  rw [simplify_shape root y0 y1 m0 m1 d0 d1 h1 h2 hm0 hm1]
  have hlen : (month_codes.length : Int) = 12 := by rfl
  rw [pyIndex_pos month_codes _ 'F' (by omega) (by omega)]
  have ht : (((10 * (m0.toNat - 48) + (m1.toNat - 48) : Nat) : Int) - 1).toNat =
      10 * (m0.toNat - 48) + (m1.toNat - 48) - 1 := by omega
  rw [ht]
  rfl

/-- C3 (witness): the amended statement at the spec's example
`"BTCUSDT_240329"`, giving `"H4.BNC"`. -/
theorem C3_amended_witness :
    simplify_future_native_code
        (['B', 'T', 'C', 'U', 'S', 'D', 'T'] ++ '_' :: ['2', '4', '0', '3', '2', '9']) =
      .ok ([month_codes.getD (10 * ('0'.toNat - 48) + ('3'.toNat - 48) - 1) 'F', '4'] ++
        ['.', 'B', 'N', 'C']) :=
  C3_amended ['B', 'T', 'C', 'U', 'S', 'D', 'T'] '2' '4' '0' '3' '2' '9'
    (by decide) (by decide) (by decide) (by decide) (by decide) (by decide)

/-- C10: for a `"<root>_<YYMMDD>"` futures symbol, month digits `"00"` do
not fail — Python's negative indexing at `month - 1 = -1` silently
returns the December code `Z` — and the table lookup fails (IndexError)
exactly for month values 13 and above. -/
theorem C10_claim (root : List Char) (y0 y1 m0 m1 d0 d1 : Char)
    (h1 : '_' ∉ root) (h2 : '_' ∉ [y0, y1, m0, m1, d0, d1])
    (hm0 : m0.isDigit = true) (hm1 : m1.isDigit = true) :
    simplify_future_native_code (root ++ '_' :: [y0, y1, m0, m1, d0, d1]) =
      if 13 ≤ 10 * (m0.toNat - 48) + (m1.toNat - 48) then .error .indexError
      else
        .ok ([month_codes.getD ((10 * (m0.toNat - 48) + (m1.toNat - 48) + 11) % 12) 'F', y1] ++
          ['.', 'B', 'N', 'C']) := by
  rw [simplify_shape root y0 y1 m0 m1 d0 d1 h1 h2 hm0 hm1]
  have hlen : (month_codes.length : Int) = 12 := by rfl
  set m : Nat := 10 * (m0.toNat - 48) + (m1.toNat - 48) with hm
  by_cases h13 : 13 ≤ m
  · rw [if_pos h13, pyIndex_oob month_codes _ (by omega)]
    rfl
  · rw [if_neg h13]
    by_cases h0 : m = 0
    · rw [pyIndex_neg month_codes _ 'F' (by omega) (by omega)]
      have ht : (((month_codes.length : Int)) + (((m : Nat) : Int) - 1)).toNat = (m + 11) % 12 := by
        omega
      rw [ht]
      rfl
    · rw [pyIndex_pos month_codes _ 'F' (by omega) (by omega)]
      have ht : ((((m : Nat) : Int)) - 1).toNat = (m + 11) % 12 := by omega
      rw [ht]
      rfl

/-- C10 (witness): `"BTCUSD_240029"` (month digits `"00"`) succeeds and
yields the December code `Z` with year digit `4`. -/
theorem C10_claim_witness :
    simplify_future_native_code
        (['B', 'T', 'C', 'U', 'S', 'D'] ++ '_' :: ['2', '4', '0', '0', '2', '9']) =
      if 13 ≤ 10 * ('0'.toNat - 48) + ('0'.toNat - 48) then .error .indexError
      else
        .ok ([month_codes.getD ((10 * ('0'.toNat - 48) + ('0'.toNat - 48) + 11) % 12) 'F', '4'] ++
          ['.', 'B', 'N', 'C']) :=
  C10_claim ['B', 'T', 'C', 'U', 'S', 'D'] '2' '4' '0' '0' '2' '9'
    (by decide) (by decide) (by decide) (by decide)

/-- C6: `simplify_future_native_code` raises one of its two explicit
format guards exactly when the symbol does not split on `_` into two
parts or the date part does not have length 6; and any error raised
while processing an item aborts the whole derivative parse run (the
remaining items are never processed). -/
theorem C6_claim :
    (∀ s : List Char,
      isFormatError (simplify_future_native_code s) = true ↔
        ((pySplit '_' s).length ≠ 2 ∨ ((pySplit '_' s).getD 1 []).length ≠ 6)) ∧
    (∀ venue : String, ∀ item : DerivItem, ∀ e : PyError, ∀ rest : List DerivItem,
      (processDerivItem venue item).1 = .error e →
      (parse_binance_usdfut_exchange_info venue (item :: rest)).1 = .error e) := by
  constructor
  · intro s
    by_cases hp : (pySplit '_' s).length ≠ 2
    · simp only [simplify_future_native_code]
      rw [if_pos hp]
      exact iff_of_true rfl (Or.inl hp)
    · by_cases hd : ((pySplit '_' s).getD 1 []).length ≠ 6
      · simp only [simplify_future_native_code]
        rw [if_neg hp, if_pos hd]
        exact iff_of_true rfl (Or.inr hd)
      · simp only [simplify_future_native_code]
        rw [if_neg hp, if_neg hd]
        constructor
        · intro hf
          exfalso
          revert hf
          simp only [Bind.bind, Except.bind]
          rcases pyIntDigits_cases ((((pySplit '_' s).getD 1 []).drop 2).take 2) with
              ⟨n, hn⟩ | hn <;> rw [hn]
          · dsimp only
            rcases pyIndex_cases month_codes ((n : Int) - 1) with ⟨c, hc⟩ | hc <;> rw [hc]
            · dsimp only
              rcases pyIndex_cases (((pySplit '_' s).getD 1 []).take 2) 1 with
                  ⟨c2, hc2⟩ | hc2 <;> rw [hc2]
              · exact fun hf => Bool.noConfusion hf
              · exact fun hf => Bool.noConfusion hf
            · exact fun hf => Bool.noConfusion hf
          · exact fun hf => Bool.noConfusion hf
        · intro hor
          rcases hor with h | h
          · exact absurd h hp
          · exact absurd h hd
  · intro venue item e rest h
    rcases hp : processDerivItem venue item with ⟨r, ds⟩
    rw [hp] at h
    simp only at h
    subst h
    simp [parse_binance_usdfut_exchange_info, parseUsdfutStep, hp]

/-- C6 (witness): a derivative item whose symbol `"ABC"` does not split
into two parts is classified as a future and aborts the whole run with
the format error. -/
theorem C6_claim_witness :
    (processDerivItem "binance_usdfut"
        ⟨"ABC", "BTC", "USD", "USD", "8", "8", some "TRADING", Option.none,
          Option.none, some "CURRENT_QUARTER", []⟩).1 =
      .error (.formatError ("expected symbol to split into 2 parts, ".data ++ "ABC".data)) ∧
    (parse_binance_usdfut_exchange_info "binance_usdfut"
        [⟨"ABC", "BTC", "USD", "USD", "8", "8", some "TRADING", Option.none,
          Option.none, some "CURRENT_QUARTER", []⟩]).1 =
      .error (.formatError ("expected symbol to split into 2 parts, ".data ++ "ABC".data)) :=
  ⟨by decide,
   C6_claim.2 "binance_usdfut"
     ⟨"ABC", "BTC", "USD", "USD", "8", "8", some "TRADING", Option.none,
       Option.none, some "CURRENT_QUARTER", []⟩
     (.formatError ("expected symbol to split into 2 parts, ".data ++ "ABC".data)) []
     (by decide)⟩

/-- C1: evaluating `extract_header_cols` at a record list whose first
record's first field is the key field itself.  Because the source
initializes the uniqueness set with `set(index_field)` — the characters
of the key field name — the key field is appended a second time, so the
returned column list repeats the key field, contradicting the claimed
exactly-once property. -/
theorem C1_code_eval :
    extract_header_cols [[("instId", .str "BTC/USDT.BNC")]] "instId" =
      ["instId", "instId"] := by
  decide

lemma isSuffixOf_iff_suffix (l1 l2 : List Char) : l1.isSuffixOf l2 = true ↔ l1 <:+ l2 := by
  unfold List.isSuffixOf
  rw [List.isPrefixOf_iff_prefix, List.reverse_prefix]

/-- A symbol ending in `"_PERP"` cannot also end in `".PERP"`; the two
five-character suffixes would have to coincide. -/
lemma not_endsWith_dotPERP (s : String) (h : pyEndsWith "_PERP" s = true) :
    pyEndsWith ".PERP" s = false := by
  unfold pyEndsWith at *
  rw [isSuffixOf_iff_suffix] at h
  rw [Bool.eq_false_iff]
  intro h2
  rw [isSuffixOf_iff_suffix] at h2
  obtain ⟨t1, ht1⟩ := h
  obtain ⟨t2, ht2⟩ := h2
  rw [← ht2] at ht1
  have hlen : t1.length = t2.length := by
    have := congrArg List.length ht1
    simp at this
    omega
  have := (List.append_inj ht1 hlen).2
  exact absurd this (by decide)

lemma dget_dinsert (k k2 : String) (v : PVal) (row : Row) :
    dget (dinsert k v row) k2 = if k2 = k then some v else dget row k2 := by
  induction row with
  | nil =>
    by_cases h : k2 = k
    · subst h
      simp [dinsert, dget]
    · have h' : ¬(k = k2) := fun e => h e.symm
      simp [dinsert, dget, h, h']
  | cons p rest ih =>
    obtain ⟨pk, pv⟩ := p
    by_cases hpk : pk = k
    · subst hpk
      by_cases h : k2 = pk
      · subst h
        simp [dinsert, dget]
      · have h' : ¬(pk = k2) := fun e => h e.symm
        simp [dinsert, dget, h, h']
    · by_cases h : pk = k2
      · subst h
        simp [dinsert, dget, hpk, Ne.symm hpk]
      · simp [dinsert, dget, hpk, h, ih]

/-- The derivative filter loop only writes the six constraint fields;
every other field keeps its value. -/
lemma processDerivFilters_dget_frozen (fs : List BFilter) (row : Row) (ds : List String)
    (k : String)
    (hk : k ∉ ["minQty", "maxQty", "lotQty", "minNotional", "tickSize", "maxNumOrders"]) :
    dget (processDerivFilters fs row ds).1 k = dget row k := by
  have h1 : ¬(k = "minQty") := fun e => hk (by simp [e])
  have h2 : ¬(k = "maxQty") := fun e => hk (by simp [e])
  have h3 : ¬(k = "lotQty") := fun e => hk (by simp [e])
  have h4 : ¬(k = "minNotional") := fun e => hk (by simp [e])
  have h5 : ¬(k = "tickSize") := fun e => hk (by simp [e])
  have h6 : ¬(k = "maxNumOrders") := fun e => hk (by simp [e])
  induction fs generalizing row ds with
  | nil => rfl
  | cons f fs ih =>
    simp only [processDerivFilters]
    split_ifs with c1 c2 c3 c4 c5 <;>
      rw [ih] <;> simp [dget_dinsert, h1, h2, h3, h4, h5, h6]

lemma buildDerivRow_dget_instId (venue : String) (item : DerivItem) (assetType instId : String) :
    dget (buildDerivRow venue item assetType instId) "instId" = some (.str instId) := by
  simp [buildDerivRow, dget_dinsert]

lemma buildDerivRow_dget_underlyingType (venue : String) (item : DerivItem)
    (assetType instId : String) :
    dget (buildDerivRow venue item assetType instId) "underlyingType" =
      some (pvalOfOpt item.underlyingType) := by
  simp [buildDerivRow, dget_dinsert]

lemma buildDerivRow_dget_contractType (venue : String) (item : DerivItem)
    (assetType instId : String) :
    dget (buildDerivRow venue item assetType instId) "contractType" =
      some (pvalOfOpt item.contractType) := by
  simp [buildDerivRow, dget_dinsert]

/-- C4: the claim's expected value.  For the perp item with native symbol
`"BTCUSD_PERP"`, base `BTC`, quote `USD`, the code produces
`"BTC/USD.BNC"`, not `"BTC/USD.PF.BNC"`: the `_PERP → .PF` rewrite
branch is guarded by an `endswith(".PERP")` test, which a symbol ending
in `"_PERP"` never satisfies, so the plain `else` branch applies. -/
theorem C4_counterexample :
    ((processDerivItem "binance_coinfut" c4item).1.toOption.join.bind
      (fun r => dget r "instId")) = some (.str "BTC/USD.BNC") ∧
    PVal.str "BTC/USD.BNC" ≠ PVal.str "BTC/USD.PF.BNC" := by
  constructor
  · rfl
  · decide

/-- C4 (amended): for every derivative item whose contract type is
`"PERPETUAL"` and whose native symbol ends with `"_PERP"`, the
Instrument-ID Builder produces `"<base>/<quote>.BNC"` — the `.PF`
substitution branch cannot fire because its guard tests for a `".PERP"`
suffix. -/
theorem C4_amended (venue : String) (item : DerivItem)
    (hct : item.contractType = some "PERPETUAL")
    (hsym : pyEndsWith "_PERP" item.symbol = true) :
    ∃ row : Row, (processDerivItem venue item).1 = .ok (some row) ∧
      dget row "instId" =
        some (.str ((item.baseAsset ++ "/" ++ item.quoteAsset) ++ ".BNC")) := by
  have hdot := not_endsWith_dotPERP item.symbol hsym
  have hA : ¬(True ∧ pyEndsWith "_PERP" item.symbol = false) := by
    intro hcon
    rw [hsym] at hcon
    exact Bool.noConfusion hcon.2
  have hB : ¬(True ∧ pyEndsWith ".PERP" item.symbol = true) := by
    intro hcon
    rw [hdot] at hcon
    exact Bool.noConfusion hcon.2
  have hii : derivInstIdExc "perp" (item.baseAsset ++ "/" ++ item.quoteAsset) item.symbol =
      .ok ((item.baseAsset ++ "/" ++ item.quoteAsset) ++ ".BNC") := by
    simp only [derivInstIdExc]
    rw [if_neg hA, if_neg hB, if_neg (show ¬("perp" = "future") by decide)]
  have hcl : (normalise_contractType "PERPETUAL").1 = some "perp" := rfl
  unfold processDerivItem
  rw [hct]
  simp only [processDerivTagged]
  rw [hcl]
  simp only [processDerivUnwrap, processDerivClassified]
  rw [hii]
  simp only [processDerivWithInstId]
  refine ⟨(processDerivFilters item.filters
      (buildDerivRow venue item "perp" ((item.baseAsset ++ "/" ++ item.quoteAsset) ++ ".BNC"))
      []).1, rfl, ?_⟩
  rw [processDerivFilters_dget_frozen _ _ _ "instId" (by decide), buildDerivRow_dget_instId]

/-- C4 (witness): the amended statement at the example item. -/
theorem C4_amended_witness :
    (c4item.contractType = some "PERPETUAL" ∧ pyEndsWith "_PERP" c4item.symbol = true) ∧
    ∃ row : Row, (processDerivItem "binance_coinfut" c4item).1 = .ok (some row) ∧
      dget row "instId" =
        some (.str ((c4item.baseAsset ++ "/" ++ c4item.quoteAsset) ++ ".BNC")) :=
  ⟨⟨rfl, by decide⟩, C4_amended "binance_coinfut" c4item rfl (by decide)⟩

/-- C9: the claim's expected behavior fails.  For an item without
`underlyingType`, the produced record still carries the key
`underlyingType` — its value is the null value (`item.get` returns
`None`, which is assigned unconditionally) — rather than the key being
absent. -/
theorem C9_counterexample :
    ((processDerivItem "binance_usdfut" c9item).1.toOption.join.bind
      (fun r => dget r "underlyingType")) = some PVal.none ∧
    some PVal.none ≠ (Option.none : Option PVal) := by
  constructor
  · rfl
  · decide

/-- C9 (amended): in every record the derivative normalizer produces,
the fields `underlyingType` and `contractType` are always present: they
hold the raw item's value when the raw field exists and the null value
(rendered `"None"` in the CSV) when it does not. -/
theorem C9_amended (venue : String) (item : DerivItem) (row : Row)
    (h : (processDerivItem venue item).1 = .ok (some row)) :
    dget row "underlyingType" = some (pvalOfOpt item.underlyingType) ∧
    dget row "contractType" = some (pvalOfOpt item.contractType) := by
  unfold processDerivItem at h
  rcases hct : item.contractType with _ | ct
  · rw [hct] at h
    simp [processDerivTagged] at h
  · rw [hct] at h
    simp only [processDerivTagged] at h
    rcases hn : (normalise_contractType ct).1 with _ | assetType
    · rw [hn] at h
      simp [processDerivUnwrap] at h
    · rw [hn] at h
      simp only [processDerivUnwrap, processDerivClassified] at h
      rcases hii : derivInstIdExc assetType (item.baseAsset ++ "/" ++ item.quoteAsset)
          item.symbol with e | instId
      · rw [hii] at h
        simp [processDerivWithInstId] at h
      · rw [hii] at h
        simp only [processDerivWithInstId, Except.ok.injEq, Option.some.injEq] at h
        subst h
        constructor
        · rw [processDerivFilters_dget_frozen _ _ _ "underlyingType" (by decide),
              buildDerivRow_dget_underlyingType]
        · rw [processDerivFilters_dget_frozen _ _ _ "contractType" (by decide),
              buildDerivRow_dget_contractType, hct]

/-- C9 (witness): the amended statement at the example item. -/
theorem C9_amended_witness :
    (processDerivItem "binance_usdfut" c9item).1 = .ok (some c9row) ∧
    (dget c9row "underlyingType" = some (pvalOfOpt c9item.underlyingType) ∧
     dget c9row "contractType" = some (pvalOfOpt c9item.contractType)) :=
  ⟨by decide, C9_amended "binance_usdfut" c9item c9row (by decide)⟩

set_option maxHeartbeats 2000000 in
/-- C8: a spot document with one symbol whose filter list carries
`LOT_SIZE{minQty, maxQty, stepSize}`, `MIN_NOTIONAL{minNotional}` and
`PRICE_FILTER{tickSize}` yields exactly one record, of type
`"coinpair"`, with `instId = "<base>/<quote>.BNC"` and the five numeric
constraint fields populated from the filters. -/
theorem C8_claim (symbol base quote qp bp st mq mxq ss mn ts : String) :
    let item : SpotItem :=
      ⟨symbol, base, quote, qp, bp, st,
        [⟨"LOT_SIZE", [("minQty", mq), ("maxQty", mxq), ("stepSize", ss)]⟩,
         ⟨"MIN_NOTIONAL", [("minNotional", mn)]⟩,
         ⟨"PRICE_FILTER", [("tickSize", ts)]⟩]⟩
    let rows := (parse_binance_spot_exchange_info [item] ([], [])).1
    rows.length = 1 ∧
    dget (rows.headD []) "type" = some (.str "coinpair") ∧
    dget (rows.headD []) "instId" = some (.str ((base ++ "/" ++ quote) ++ ".BNC")) ∧
    dget (rows.headD []) "minQty" = some (.str mq) ∧
    dget (rows.headD []) "maxQty" = some (.str mxq) ∧
    dget (rows.headD []) "lotQty" = some (.str ss) ∧
    dget (rows.headD []) "minNotional" = some (.str mn) ∧
    dget (rows.headD []) "tickSize" = some (.str ts) := by
  dsimp only
  refine ⟨rfl, ?_, ?_, ?_, ?_, ?_, ?_, ?_⟩ <;>
    simp [parse_binance_spot_exchange_info, processSpotFilters, buildSpotRow,
      spot_filters_to_ignore, fget, dget, dinsert]

/-- An item the derivative normalizer skips always yields `(ok None, [])`:
no record, no warning, run continues. -/
lemma processDerivItem_skip (venue : String) (it : DerivItem)
    (h : derivSkipped it = true) :
    processDerivItem venue it = (.ok Option.none, []) := by
  unfold derivSkipped at h
  unfold processDerivItem
  rcases hct : it.contractType with _ | ct
  · rw [hct] at h
    exact absurd h (by simp)
  · rw [hct] at h
    simp only at h
    rw [Option.isNone_iff_eq_none] at h
    simp [processDerivTagged, processDerivUnwrap, h]

/-- The record list of a derivative run is unchanged when the skipped
items (contract type present but classified `(None, None)`) are removed
up front: skipping produces no record and continues the run. -/
lemma parseUsdfut_rows_filter (venue : String) (items : List DerivItem) :
    (parse_binance_usdfut_exchange_info venue items).1 =
      (parse_binance_usdfut_exchange_info venue
        (items.filter (fun it => !derivSkipped it))).1 := by
  induction items with
  | nil => rfl
  | cons it rest ih =>
    by_cases hsk : derivSkipped it = true
    · have hb : (!derivSkipped it) = false := by rw [hsk]; rfl
      rw [List.filter_cons, hb]
      simp only [Bool.false_eq_true, if_false]
      simp [parse_binance_usdfut_exchange_info, parseUsdfutStep,
        processDerivItem_skip venue it hsk, ih]
    · have hf : derivSkipped it = false := by rwa [Bool.not_eq_true] at hsk
      have hb : (!derivSkipped it) = true := by rw [hf]; rfl
      rw [List.filter_cons, hb]
      simp only [if_true]
      rcases hp : (processDerivItem venue it).1 with e | o
      · simp [parse_binance_usdfut_exchange_info, parseUsdfutStep, hp]
      · rcases o with _ | row
        · simpa [parse_binance_usdfut_exchange_info, parseUsdfutStep, hp] using ih
        · simp [parse_binance_usdfut_exchange_info, parseUsdfutStep, hp, ih]

/-- C7: the Contract-Type Classifier maps `"PERPETUAL"` to
`(perp, PF)`, the two quarter tags to `(future, "")`, and every other
tag to `(None, None)`; the derivative normalizer produces no record for
an item classified `(None, None)` and continues the run: its record
list equals that of the run with the skipped items removed. -/
theorem C7_claim :
    normalise_contractType "PERPETUAL" = (some "perp", some "PF") ∧
    normalise_contractType "CURRENT_QUARTER" = (some "future", some "") ∧
    normalise_contractType "NEXT_QUARTER" = (some "future", some "") ∧
    (∀ ct : String, ct ≠ "PERPETUAL" → ct ≠ "CURRENT_QUARTER" → ct ≠ "NEXT_QUARTER" →
      normalise_contractType ct = (Option.none, Option.none)) ∧
    (∀ venue : String, ∀ items : List DerivItem,
      (parse_binance_usdfut_exchange_info venue items).1 =
        (parse_binance_usdfut_exchange_info venue
          (items.filter (fun it => !derivSkipped it))).1) := by
  refine ⟨rfl, rfl, rfl, ?_, parseUsdfut_rows_filter⟩
  intro ct h1 h2 h3
  unfold normalise_contractType
  rw [if_neg h1, if_neg (fun hor => Or.elim hor h2 h3)]

/-- C7 (witness): the classifier at the unhandled tag `"UNKNOWN"`. -/
theorem C7_claim_witness :
    ("UNKNOWN" ≠ "PERPETUAL" ∧ "UNKNOWN" ≠ "CURRENT_QUARTER" ∧ "UNKNOWN" ≠ "NEXT_QUARTER") ∧
    normalise_contractType "UNKNOWN" = (Option.none, Option.none) :=
  ⟨⟨by decide, by decide, by decide⟩,
   C7_claim.2.2.2.1 "UNKNOWN" (by decide) (by decide) (by decide)⟩

lemma warnFold_append (st : WarnState) (l1 l2 : List String) :
    warnFold (warnFold st l1) l2 = warnFold st (l1 ++ l2) := by
  simp [warnFold, List.foldl_append]

lemma warnFold_mem (msgs : List String) (st : WarnState) (m : String) :
    m ∈ (warnFold st msgs).1 ↔ m ∈ st.1 ∨ m ∈ msgs := by
  induction msgs generalizing st with
  | nil => simp [warnFold]
  | cons x xs ih =>
    show m ∈ (warnFold (log_warn_once st x) xs).1 ↔ _
    rw [ih]
    unfold log_warn_once
    by_cases hx : x ∈ st.1
    · rw [if_pos hx]
      by_cases hmx : m = x
      · subst hmx
        simp [hx]
      · simp [hmx]
    · rw [if_neg hx]
      simp only [List.mem_append, List.mem_singleton, List.mem_cons]
      tauto

lemma warnFold_count (msgs : List String) (st : WarnState) (m : String) :
    (warnFold st msgs).2.count m =
      st.2.count m + (if m ∈ st.1 then 0 else if m ∈ msgs then 1 else 0) := by
  induction msgs generalizing st with
  | nil => simp [warnFold]
  | cons x xs ih =>
    show (warnFold (log_warn_once st x) xs).2.count m = _
    rw [ih]
    unfold log_warn_once
    by_cases hx : x ∈ st.1
    · rw [if_pos hx]
      by_cases hm : m ∈ st.1
      · simp [hm]
      · have hmx : ¬(m = x) := fun e => hm (e ▸ hx)
        simp [hm, hmx]
    · rw [if_neg hx]
      dsimp only
      by_cases hmx : m = x
      · subst hmx
        have h1 : m ∈ st.1 ++ [m] := by simp
        simp [h1, hx, List.count_append]
      · have hbe : (x == m) = false := by
          rw [beq_eq_false_iff_ne]
          exact fun e => hmx e.symm
        have h2 : List.count m (st.2 ++ [x]) = List.count m st.2 := by
          simp [List.count_append, List.count_singleton, hbe]
        rw [h2]
        by_cases hm : m ∈ st.1
        · have hm1 : m ∈ st.1 ++ [x] := by simp [hm]
          simp [hm, hm1]
        · have hm1 : ¬(m ∈ st.1 ++ [x]) := by simp [hm, hmx]
          simp [hm, hm1, hmx]

/-- The warn-once state after the spot filter loop does not depend on the
record being built: it is the `log_warn_once` fold over the filter list's
unrecognized-tag messages. -/
lemma processSpotFilters_state (fs : List BFilter) (row : Row) (st : WarnState) :
    (processSpotFilters fs row st).2 = warnFold st (spotWarnList fs) := by
  induction fs generalizing row st with
  | nil => rfl
  | cons f fs ih =>
    simp only [processSpotFilters]
    by_cases c1 : f.filterType = "LOT_SIZE"
    · rw [if_pos c1, ih]
      have hu : spotUnrecognized f.filterType = false := by simp [spotUnrecognized, c1]
      simp [spotWarnList, List.filter_cons, hu]
    · rw [if_neg c1]
      by_cases c2 : f.filterType = "MIN_NOTIONAL"
      · rw [if_pos c2, ih]
        have hu : spotUnrecognized f.filterType = false := by simp [spotUnrecognized, c2]
        simp [spotWarnList, List.filter_cons, hu]
      · rw [if_neg c2]
        by_cases c3 : f.filterType = "PRICE_FILTER"
        · rw [if_pos c3, ih]
          have hu : spotUnrecognized f.filterType = false := by simp [spotUnrecognized, c3]
          simp [spotWarnList, List.filter_cons, hu]
        · rw [if_neg c3]
          by_cases c4 : f.filterType = "MAX_NUM_ORDERS"
          · rw [if_pos c4, ih]
            have hu : spotUnrecognized f.filterType = false := by simp [spotUnrecognized, c4]
            simp [spotWarnList, List.filter_cons, hu]
          · rw [if_neg c4]
            by_cases c5 : f.filterType ∈ spot_filters_to_ignore
            · rw [if_pos c5, ih]
              have hu : spotUnrecognized f.filterType = false := by
                simp [spotUnrecognized, c5]
              simp [spotWarnList, List.filter_cons, hu]
            · rw [if_neg c5, ih]
              have hu : spotUnrecognized f.filterType = true := by
                simp only [spotUnrecognized, decide_eq_true_eq]
                exact ⟨by simp [c1, c2, c3, c4], c5⟩
              simp [spotWarnList, List.filter_cons, hu, warnFold]

/-- The warn-once state after a spot run is the fold over all its
unrecognized-tag messages. -/
lemma parseSpot_state (items : List SpotItem) (st : WarnState) :
    (parse_binance_spot_exchange_info items st).2 = warnFold st (spotWarnAll items) := by
  induction items generalizing st with
  | nil => rfl
  | cons it rest ih =>
    show (parse_binance_spot_exchange_info rest
      (processSpotFilters it.filters (buildSpotRow it) st).2).2 = _
    rw [ih, processSpotFilters_state, warnFold_append]
    rfl

/-- `spotTrigger` is membership in the run's raw warning-message list. -/
lemma spotTrigger_iff (items : List SpotItem) (m : String) :
    spotTrigger items m = true ↔ m ∈ spotWarnAll items := by
  induction items with
  | nil => simp [spotTrigger, spotWarnAll]
  | cons it rest ih =>
    simp only [spotTrigger, List.any_cons, Bool.or_eq_true, spotWarnAll, List.mem_append]
    rw [show (rest.any (fun it => it.filters.any (fun f => spotUnrecognized f.filterType &&
        (warn_filter_msg f.filterType == m)))) = spotTrigger rest m from rfl, ih]
    constructor
    · rintro (h | h)
      · left
        simp only [List.any_eq_true, Bool.and_eq_true, beq_iff_eq] at h
        obtain ⟨f, hf, hu, he⟩ := h
        simp only [spotWarnList, List.mem_map, List.mem_filter]
        exact ⟨f, ⟨hf, hu⟩, he⟩
      · exact Or.inr h
    · rintro (h | h)
      · left
        simp only [spotWarnList, List.mem_map, List.mem_filter] at h
        obtain ⟨f, ⟨hf, hu⟩, he⟩ := h
        simp only [List.any_eq_true, Bool.and_eq_true, beq_iff_eq]
        exact ⟨f, hf, hu, he⟩
      · exact Or.inr h

lemma exceptIsOk_map {e a b : Type} (f : a → b) (x : Except e a) :
    exceptIsOk (x.map f) = exceptIsOk x := by
  cases x <;> rfl

lemma processDerivFilters_diags (fs : List BFilter) (row : Row) (ds : List String) :
    (processDerivFilters fs row ds).2 = ds ++ derivWarnList fs := by
  induction fs generalizing row ds with
  | nil => simp [processDerivFilters, derivWarnList]
  | cons f fs ih =>
    simp only [processDerivFilters]
    by_cases c1 : f.filterType = "LOT_SIZE"
    · rw [if_pos c1, ih]
      have hu : derivUnrecognized f.filterType = false := by simp [derivUnrecognized, c1]
      simp [derivWarnList, List.filter_cons, hu]
    · rw [if_neg c1]
      by_cases c2 : f.filterType = "MIN_NOTIONAL"
      · rw [if_pos c2, ih]
        have hu : derivUnrecognized f.filterType = false := by simp [derivUnrecognized, c2]
        simp [derivWarnList, List.filter_cons, hu]
      · rw [if_neg c2]
        by_cases c3 : f.filterType = "PRICE_FILTER"
        · rw [if_pos c3, ih]
          have hu : derivUnrecognized f.filterType = false := by simp [derivUnrecognized, c3]
          simp [derivWarnList, List.filter_cons, hu]
        · rw [if_neg c3]
          by_cases c4 : f.filterType = "MAX_NUM_ORDERS"
          · rw [if_pos c4, ih]
            have hu : derivUnrecognized f.filterType = false := by
              simp [derivUnrecognized, c4]
            simp [derivWarnList, List.filter_cons, hu]
          · rw [if_neg c4]
            by_cases c5 : f.filterType ∈ deriv_filters_to_ignore
            · rw [if_pos c5, ih]
              have hu : derivUnrecognized f.filterType = false := by
                simp [derivUnrecognized, c5]
              simp [derivWarnList, List.filter_cons, hu]
            · rw [if_neg c5, ih]
              have hu : derivUnrecognized f.filterType = true := by
                simp only [derivUnrecognized, decide_eq_true_eq]
                exact ⟨by simp [c1, c2, c3, c4], c5⟩
              simp [derivWarnList, List.filter_cons, hu]

lemma derivWarnList_count (fs : List BFilter) (m : String) :
    (derivWarnList fs).count m =
      fs.countP (fun f => derivUnrecognized f.filterType &&
        (warn_filter_msg f.filterType == m)) := by
  induction fs with
  | nil => simp [derivWarnList]
  | cons f fs ih =>
    by_cases hu : derivUnrecognized f.filterType = true
    · simp only [derivWarnList, List.filter_cons, hu, if_true, List.map_cons,
        List.count_cons, List.countP_cons, Bool.true_and]
      rw [show ((fs.filter (fun f => derivUnrecognized f.filterType)).map
        (fun f => warn_filter_msg f.filterType)).count m = (derivWarnList fs).count m from rfl]
      rw [ih]
    · have hu' : derivUnrecognized f.filterType = false := by
        rwa [Bool.not_eq_true] at hu
      simp only [derivWarnList, List.filter_cons, hu', Bool.false_eq_true, if_false,
        List.countP_cons, Bool.false_and]
      rw [show ((fs.filter (fun f => derivUnrecognized f.filterType)).map
        (fun f => warn_filter_msg f.filterType)).count m = (derivWarnList fs).count m from rfl]
      simp [ih]

lemma processDerivItem_ok_none (venue : String) (it : DerivItem) (ds : List String)
    (h : processDerivItem venue it = (.ok Option.none, ds)) :
    ds = [] ∧ derivProcessed it = false := by
  unfold processDerivItem at h
  rcases hct : it.contractType with _ | ct
  · rw [hct] at h
    simp [processDerivTagged] at h
  · rw [hct] at h
    simp only [processDerivTagged] at h
    rcases hn : (normalise_contractType ct).1 with _ | at_
    · rw [hn] at h
      simp only [processDerivUnwrap] at h
      have hds : ds = [] := by
        have := congrArg Prod.snd h
        simpa using this.symm
      exact ⟨hds, by simp [derivProcessed, hct, hn]⟩
    · rw [hn] at h
      simp only [processDerivUnwrap, processDerivClassified] at h
      rcases hii : derivInstIdExc at_ (it.baseAsset ++ "/" ++ it.quoteAsset) it.symbol
        with e | instId
      · rw [hii] at h
        simp [processDerivWithInstId] at h
      · rw [hii] at h
        simp [processDerivWithInstId] at h

lemma processDerivItem_ok_some (venue : String) (it : DerivItem) (row : Row)
    (ds : List String) (m : String)
    (h : processDerivItem venue it = (.ok (some row), ds)) :
    derivProcessed it = true ∧
    ds.count m = it.filters.countP (fun f => derivUnrecognized f.filterType &&
      (warn_filter_msg f.filterType == m)) := by
  unfold processDerivItem at h
  rcases hct : it.contractType with _ | ct
  · rw [hct] at h
    simp [processDerivTagged] at h
  · rw [hct] at h
    simp only [processDerivTagged] at h
    rcases hn : (normalise_contractType ct).1 with _ | at_
    · rw [hn] at h
      simp [processDerivUnwrap] at h
    · rw [hn] at h
      simp only [processDerivUnwrap, processDerivClassified] at h
      rcases hii : derivInstIdExc at_ (it.baseAsset ++ "/" ++ it.quoteAsset) it.symbol
        with e | instId
      · rw [hii] at h
        simp [processDerivWithInstId] at h
      · rw [hii] at h
        simp only [processDerivWithInstId] at h
        have hds : ds = (processDerivFilters it.filters
            (buildDerivRow venue it at_ instId) []).2 := by
          have := congrArg Prod.snd h
          simpa using this.symm
        refine ⟨by simp [derivProcessed, hct, hn], ?_⟩
        rw [hds, processDerivFilters_diags]
        simp [derivWarnList_count]

/-- On a successful derivative run, the log holds one warning per
unrecognized-filter occurrence reached: no deduplication. -/
lemma parseUsdfut_count (venue : String) (items : List DerivItem) (m : String)
    (hok : exceptIsOk (parse_binance_usdfut_exchange_info venue items).1 = true) :
    ((parse_binance_usdfut_exchange_info venue items).2).count m =
      derivOccurrences items m := by
  induction items with
  | nil => simp [parse_binance_usdfut_exchange_info, derivOccurrences]
  | cons it rest ih =>
    rcases hp : processDerivItem venue it with ⟨r, ds⟩
    rcases r with e | o
    · exfalso
      rw [show (parse_binance_usdfut_exchange_info venue (it :: rest)).1 = .error e from by
        simp [parse_binance_usdfut_exchange_info, parseUsdfutStep, hp]] at hok
      exact Bool.noConfusion hok
    · rcases o with _ | row
      · obtain ⟨hds, hproc⟩ := processDerivItem_ok_none venue it ds hp
        subst hds
        have heq1 : (parse_binance_usdfut_exchange_info venue (it :: rest)).1 =
            (parse_binance_usdfut_exchange_info venue rest).1 := by
          simp [parse_binance_usdfut_exchange_info, parseUsdfutStep, hp]
        have heq2 : (parse_binance_usdfut_exchange_info venue (it :: rest)).2 =
            (parse_binance_usdfut_exchange_info venue rest).2 := by
          simp [parse_binance_usdfut_exchange_info, parseUsdfutStep, hp]
        rw [heq1] at hok
        rw [heq2, ih hok]
        simp [derivOccurrences, List.filter_cons, hproc]
      · obtain ⟨hproc, hcnt⟩ := processDerivItem_ok_some venue it row ds m hp
        have heq1 : (parse_binance_usdfut_exchange_info venue (it :: rest)).1 =
            ((parse_binance_usdfut_exchange_info venue rest).1).map
              (fun rows => row :: rows) := by
          simp [parse_binance_usdfut_exchange_info, parseUsdfutStep, hp]
        have heq2 : (parse_binance_usdfut_exchange_info venue (it :: rest)).2 =
            ds ++ (parse_binance_usdfut_exchange_info venue rest).2 := by
          simp [parse_binance_usdfut_exchange_info, parseUsdfutStep, hp]
        rw [heq1, exceptIsOk_map] at hok
        rw [heq2, List.count_append, hcnt, ih hok]
        simp [derivOccurrences, List.filter_cons, hproc]

/-- C2 (amended): in the spot normalizer an unrecognized filter tag
whose derived message is identical across records produces exactly one
diagnostic per fresh run (warn-once); the derivative normalizer performs
no suppression — on a completed run it emits one diagnostic per
unrecognized-filter occurrence. -/
theorem C2_amended :
    (∀ items : List SpotItem, ∀ m : String,
      ((parse_binance_spot_exchange_info items ([], [])).2.2).count m =
        if spotTrigger items m = true then 1 else 0) ∧
    (∀ venue : String, ∀ items : List DerivItem, ∀ m : String,
      exceptIsOk (parse_binance_usdfut_exchange_info venue items).1 = true →
      ((parse_binance_usdfut_exchange_info venue items).2).count m =
        derivOccurrences items m) := by
  constructor
  · intro items m
    rw [parseSpot_state, warnFold_count]
    have hnone : ¬(m ∈ (([], []) : WarnState).1) := by simp
    rw [if_neg hnone]
    by_cases ht : spotTrigger items m = true
    · rw [if_pos ht, if_pos ((spotTrigger_iff items m).mp ht)]
      rfl
    · rw [if_neg ht, if_neg (fun hmem => ht ((spotTrigger_iff items m).mpr hmem))]
      rfl
  · exact parseUsdfut_count

/-- C2: the claim's expected behavior fails for the derivative
normalizer.  Three records with the same unrecognized filter tag produce
three identical diagnostics, not one: the derivative loop calls the
plain warning logger, not the warn-once logger. -/
theorem C2_counterexample :
    ((parse_binance_usdfut_exchange_info "binance_usdfut" c2items).2).count
      (warn_filter_msg "FOO_FILTER") = 3 ∧ (3 : Nat) ≠ 1 := by
  constructor
  · rfl
  · decide

/-- C2 (witness): the amended derivative statement at the three-record
run — the run succeeds and its diagnostic count equals the number of
unrecognized-filter occurrences. -/
theorem C2_amended_witness :
    exceptIsOk (parse_binance_usdfut_exchange_info "binance_usdfut" c2items).1 = true ∧
    ((parse_binance_usdfut_exchange_info "binance_usdfut" c2items).2).count
        (warn_filter_msg "FOO_FILTER") =
      derivOccurrences c2items (warn_filter_msg "FOO_FILTER") :=
  ⟨by decide,
   C2_amended.2 "binance_usdfut" c2items (warn_filter_msg "FOO_FILTER") (by decide)⟩

lemma buildLinesGo_diags_mono (hcols : List String) (idx : String) (rows : List Row)
    (acc : List (PVal × List PVal)) (ds : List String) (m : String) (hm : m ∈ ds) :
    m ∈ (buildLinesGo hcols idx rows acc ds).2 := by
  induction rows generalizing acc ds with
  | nil => exact hm
  | cons r rest ih =>
    simp only [buildLinesGo]
    by_cases hk : rowKey idx r ∈ acc.map Prod.fst
    · rw [if_pos hk]
      exact ih _ _ (by simp [hm])
    · rw [if_neg hk]
      exact ih _ _ hm

lemma buildLinesGo_acc_mem (hcols : List String) (idx : String) (rows : List Row)
    (acc : List (PVal × List PVal)) (ds : List String) (p : PVal × List PVal)
    (hp : p ∈ acc) :
    p ∈ (buildLinesGo hcols idx rows acc ds).1 := by
  induction rows generalizing acc ds with
  | nil => exact hp
  | cons r rest ih =>
    simp only [buildLinesGo]
    by_cases hk : rowKey idx r ∈ acc.map Prod.fst
    · rw [if_pos hk]
      exact ih _ _ hp
    · rw [if_neg hk]
      exact ih _ _ (by simp [hp])

lemma buildLinesGo_dup_mem (hcols : List String) (idx : String) (rows : List Row)
    (acc : List (PVal × List PVal)) (ds : List String) (k : PVal)
    (hk : k ∈ acc.map Prod.fst) (hr : ∃ r ∈ rows, rowKey idx r = k) :
    dupMsg k ∈ (buildLinesGo hcols idx rows acc ds).2 := by
  induction rows generalizing acc ds with
  | nil =>
    obtain ⟨r, hmem, _⟩ := hr
    cases hmem
  | cons r rest ih =>
    simp only [buildLinesGo]
    by_cases hkr : rowKey idx r ∈ acc.map Prod.fst
    · rw [if_pos hkr]
      obtain ⟨r2, hmem, hkey⟩ := hr
      rcases List.mem_cons.mp hmem with he | hmem2
      · subst he
        exact buildLinesGo_diags_mono _ _ _ _ _ _ (by simp [hkey])
      · exact ih _ _ hk ⟨r2, hmem2, hkey⟩
    · rw [if_neg hkr]
      obtain ⟨r2, hmem, hkey⟩ := hr
      rcases List.mem_cons.mp hmem with he | hmem2
      · exfalso
        subst he
        rw [hkey] at hkr
        exact hkr hk
      · exact ih _ _ (by simp [hk]) ⟨r2, hmem2, hkey⟩

lemma buildLinesGo_dup (hcols : List String) (idx : String) (rows : List Row)
    (acc : List (PVal × List PVal)) (ds : List String) (k : PVal)
    (hk : k ∉ acc.map Prod.fst)
    (hc : 2 ≤ rows.countP (fun r => rowKey idx r == k)) :
    dupMsg k ∈ (buildLinesGo hcols idx rows acc ds).2 := by
  induction rows generalizing acc ds with
  | nil => simp at hc
  | cons r rest ih =>
    simp only [buildLinesGo]
    by_cases hkr : rowKey idx r ∈ acc.map Prod.fst
    · rw [if_pos hkr]
      by_cases he : rowKey idx r = k
      · exact absurd (he ▸ hkr) hk
      · apply ih _ _ hk
        have hb : (rowKey idx r == k) = false := by
          rw [beq_eq_false_iff_ne]
          exact he
        rw [List.countP_cons, hb] at hc
        simpa using hc
    · rw [if_neg hkr]
      by_cases he : rowKey idx r = k
      · have h1 : 0 < rest.countP (fun r => rowKey idx r == k) := by
          have hb : (rowKey idx r == k) = true := by
            rw [beq_iff_eq]
            exact he
          rw [List.countP_cons, hb, if_pos rfl] at hc
          omega
        obtain ⟨r2, hr2, hk2⟩ := List.countP_pos_iff.mp h1
        exact buildLinesGo_dup_mem _ _ _ _ _ _ (by simp [he])
          ⟨r2, hr2, by rwa [beq_iff_eq] at hk2⟩
      · have hne : ¬(k = rowKey idx r) := fun e => he e.symm
        apply ih _ _ (by simp [hk, hne])
        have hb : (rowKey idx r == k) = false := by
          rw [beq_eq_false_iff_ne]
          exact he
        rw [List.countP_cons, hb] at hc
        simpa using hc

lemma buildLinesGo_count (hcols : List String) (idx : String) (rows : List Row)
    (acc : List (PVal × List PVal)) (ds : List String) (k : PVal) :
    (((buildLinesGo hcols idx rows acc ds).1).map Prod.fst).count k =
      (acc.map Prod.fst).count k +
        (if k ∈ acc.map Prod.fst then 0
         else if rows.any (fun r => rowKey idx r == k) then 1 else 0) := by
  induction rows generalizing acc ds with
  | nil => simp [buildLinesGo]
  | cons r rest ih =>
    simp only [buildLinesGo]
    by_cases hkr : rowKey idx r ∈ acc.map Prod.fst
    · rw [if_pos hkr, ih]
      by_cases he : rowKey idx r = k
      · subst he
        simp [hkr]
      · have hb : (rowKey idx r == k) = false := by
          rw [beq_eq_false_iff_ne]
          exact he
        simp [List.any_cons, hb]
    · rw [if_neg hkr, ih]
      by_cases he : rowKey idx r = k
      · subst he
        have hmem : rowKey idx r ∈ (acc ++ [(rowKey idx r, renderLine hcols r)]).map Prod.fst := by
          simp
        rw [if_pos hmem, if_neg hkr]
        have hcnt : ((acc ++ [(rowKey idx r, renderLine hcols r)]).map Prod.fst).count
            (rowKey idx r) = (acc.map Prod.fst).count (rowKey idx r) + 1 := by
          simp [List.count_append]
        rw [hcnt]
        simp [List.any_cons]
      · have hb : (rowKey idx r == k) = false := by
          rw [beq_eq_false_iff_ne]
          exact he
        have hne : ¬(k = rowKey idx r) := fun e => he e.symm
        have hmem : (k ∈ (acc ++ [(rowKey idx r, renderLine hcols r)]).map Prod.fst) ↔
            k ∈ acc.map Prod.fst := by
          simp [hne]
        have hcnt : ((acc ++ [(rowKey idx r, renderLine hcols r)]).map Prod.fst).count k =
            (acc.map Prod.fst).count k := by
          have : (rowKey idx r == k) = false := hb
          simp [List.count_append, List.count_singleton, this]
        rw [hcnt]
        by_cases hin : k ∈ acc.map Prod.fst
        · rw [if_pos (hmem.mpr hin), if_pos hin]
        · rw [if_neg (fun hx => hin (hmem.mp hx)), if_neg hin]
          simp [List.any_cons, hb]

lemma buildLinesGo_find_mem (hcols : List String) (idx : String) (rows : List Row)
    (acc : List (PVal × List PVal)) (ds : List String) (k : PVal) (r : Row)
    (hk : k ∉ acc.map Prod.fst)
    (hf : rows.find? (fun r2 => rowKey idx r2 == k) = some r) :
    (k, renderLine hcols r) ∈ (buildLinesGo hcols idx rows acc ds).1 := by
  induction rows generalizing acc ds with
  | nil => cases hf
  | cons r2 rest ih =>
    by_cases hpred : (rowKey idx r2 == k) = true
    · rw [List.find?_cons_of_pos (p := fun r2 => rowKey idx r2 == k) rest hpred] at hf
      have hrr : r2 = r := by
        injection hf
      subst hrr
      have hkey : rowKey idx r2 = k := by rwa [beq_iff_eq] at hpred
      simp only [buildLinesGo]
      have hkr : ¬(rowKey idx r2 ∈ acc.map Prod.fst) := by
        rw [hkey]
        exact hk
      rw [if_neg hkr]
      apply buildLinesGo_acc_mem
      rw [hkey]
      simp
    · rw [List.find?_cons_of_neg (p := fun r2 => rowKey idx r2 == k) rest hpred] at hf
      have hne : rowKey idx r2 ≠ k := by
        rwa [← beq_eq_false_iff_ne, ← Bool.not_eq_true]
      simp only [buildLinesGo]
      by_cases hkr : rowKey idx r2 ∈ acc.map Prod.fst
      · rw [if_pos hkr]
        exact ih _ _ hk hf
      · rw [if_neg hkr]
        exact ih _ _ (by simp [hk, Ne.symm hne]) hf

lemma countP_key_eq_count (l : List (PVal × List PVal)) (k : PVal) :
    l.countP (fun kv => kv.1 == k) = (l.map Prod.fst).count k := by
  induction l with
  | nil => rfl
  | cons p rest ih =>
    simp [List.countP_cons, List.count_cons, ih]

/-- C5: for every record list in which every record carries the key
field (with a string value), the CSV Writer keeps exactly one data row
per key — the first occurrence in input order — emits a diagnostic for
every duplicated key, and emits the data rows in ascending lexicographic
order of the key, rendering missing fields as the empty string. -/
theorem C5_claim (rows : List Row) (idx : String)
    (h : rows.all (hasStrKey idx) = true) : csvSpec rows idx := by
  refine ⟨List.sorted_insertionSort _ _, ?_, ?_, ?_⟩
  · intro k
    simp only [write_csv_data]
    rw [← List.countP_eq_length_filter,
      (List.perm_insertionSort (fun (a b : PVal × List PVal) =>
        pvalSortKey a.1 ≤ pvalSortKey b.1) _).countP_eq,
      countP_key_eq_count, buildLinesGo_count]
    simp
  · intro k r hf
    simp only [write_csv_data]
    exact ((List.perm_insertionSort _ _).mem_iff).mpr
      (buildLinesGo_find_mem _ _ _ _ _ _ _ (by simp) hf)
  · intro k hc
    simp only [write_csv_diags]
    exact buildLinesGo_dup _ _ _ _ _ _ (by simp) hc

/-- C5 (witness): the CSV Writer guarantees at a concrete record list
with a duplicated key. -/
theorem C5_claim_witness :
    c5rows.all (hasStrKey "a") = true ∧ csvSpec c5rows "a" :=
  ⟨by decide, C5_claim c5rows "a" (by decide)⟩
